import Mathlib

/-!
Verification of the qualification-and-routing pipeline of the
sponsor-pathfinder repository: the same-domain crawler
(`src/qualification/crawler.ts`), the signal analyzer
(`src/qualification/analyzer.ts`), the contact extractor
(`src/contacts/extractor.ts`), the people extractor
(`src/people/extractor.ts`) and the contact-path selector
(`src/ranking/pathSelector.ts`).

The TypeScript sources are embedded shallowly: pure functions become Lean
functions, the foreign platform pieces (the network `fetch`, the WHATWG
`URL` parser, the cheerio HTML queries and the JavaScript `RegExp`
engine) become explicit oracle parameters or pre-extracted artifact
fields carried by the page model, and JavaScript's stable
`Array.prototype.sort` becomes a stable insertion sort on lists.
-/

/-- JavaScript `hay.includes(sub)` on the character list of `hay`:
Boolean contiguous-substring test, true for the empty needle. -/
def listHasSub (needle : List Char) : List Char → Bool
  | [] => needle.isEmpty
  | c :: rest => List.isPrefixOf needle (c :: rest) || listHasSub needle rest

/-- JavaScript `hay.includes(sub)` for strings. -/
def strIncludes (hay sub : String) : Bool :=
  listHasSub sub.toList hay.toList

/-- JavaScript `s.startsWith(p)`, character-wise. -/
def strStartsWith (s p : String) : Bool :=
  List.isPrefixOf p.toList s.toList

/-- JavaScript `s.endsWith(p)`, character-wise. -/
def strEndsWith (s p : String) : Bool :=
  List.isSuffixOf p.toList s.toList

/-- JavaScript `s.slice(n)` for a non-negative `n`: drop the first `n`
characters. -/
def strDrop (s : String) (n : Nat) : String :=
  ⟨s.toList.drop n⟩

/-- Drop the last `n` characters of `s`. -/
def strDropRight (s : String) (n : Nat) : String :=
  ⟨s.toList.take (s.toList.length - n)⟩

/-- JavaScript `s.toLowerCase()` restricted to ASCII case mapping, the
only case the embedded classifiers rely on. -/
def strToLower (s : String) : String :=
  ⟨s.toList.map Char.toLower⟩

/-- JavaScript `s.split(sep)` for a one-character separator. -/
def splitOnCharAux (sep : Char) : List Char → List Char → List (List Char)
  | [], cur => [cur.reverse]
  | c :: rest, cur =>
    if c = sep then cur.reverse :: splitOnCharAux sep rest []
    else splitOnCharAux sep rest (c :: cur)

/-- JavaScript `s.split(sep)` for a one-character separator, on strings. -/
def strSplitOnChar (sep : Char) (s : String) : List String :=
  (splitOnCharAux sep s.toList []).map (fun l => ⟨l⟩)

/-- JavaScript `s.trim()`: strip leading and trailing whitespace. -/
def strTrim (s : String) : String :=
  ⟨((s.toList.dropWhile Char.isWhitespace).reverse.dropWhile
      Char.isWhitespace).reverse⟩

/-- JavaScript `parts.join(sep)`. -/
def joinWith (sep : String) : List String → String
  | [] => ""
  | [x] => x
  | x :: rest => x ++ sep ++ joinWith sep rest

/-- Insertion into a JavaScript `Set` serialized as an insertion-ordered
list: a value already present is not added again. -/
def insertUnique (l : List String) (x : String) : List String :=
  if l.contains x then l else l ++ [x]

theorem nodup_insertUnique {l : List String} (h : l.Nodup) (x : String) :
    (insertUnique l x).Nodup := by
  unfold insertUnique
  split
  · exact h
  · next hc =>
    simp only [List.contains, List.elem_iff] at hc
    simpa [List.nodup_append] using ⟨h, hc⟩

theorem mem_insertUnique_of_mem {l : List String} {y : String} (x : String)
    (h : y ∈ l) : y ∈ insertUnique l x := by
  unfold insertUnique
  split
  · exact h
  · exact List.mem_append_left _ h

/-- Stable insertion (earlier elements stay before later elements of equal
key), inserting before the first element whose key is not larger. -/
def insertByKeyDesc (key : α → Nat) (x : α) : List α → List α
  | [] => [x]
  | y :: ys => if key y ≤ key x then x :: y :: ys else y :: insertByKeyDesc key x ys

/-- Stable sort, descending in `key`.  Models JavaScript's stable
`Array.prototype.sort((a, b) => key(b) - key(a))`. -/
def sortByKeyDesc (key : α → Nat) : List α → List α
  | [] => []
  | x :: xs => insertByKeyDesc key x (sortByKeyDesc key xs)

theorem perm_insertByKeyDesc (key : α → Nat) (x : α) (l : List α) :
    (insertByKeyDesc key x l).Perm (x :: l) := by
  induction l with
  | nil => simp [insertByKeyDesc]
  | cons y ys ih =>
    unfold insertByKeyDesc
    split
    · exact List.Perm.refl _
    · exact ((ih.cons y).trans (List.Perm.swap x y ys))

theorem perm_sortByKeyDesc (key : α → Nat) (l : List α) :
    (sortByKeyDesc key l).Perm l := by
  induction l with
  | nil => simp [sortByKeyDesc]
  | cons x xs ih =>
    exact (perm_insertByKeyDesc key x (sortByKeyDesc key xs)).trans (ih.cons x)

theorem mem_insertByKeyDesc {key : α → Nat} {x z : α} {l : List α} :
    z ∈ insertByKeyDesc key x l ↔ z = x ∨ z ∈ l := by
  constructor
  · intro h
    have := (perm_insertByKeyDesc key x l).mem_iff.mp h
    simpa using this
  · intro h
    apply (perm_insertByKeyDesc key x l).mem_iff.mpr
    simpa using h

theorem pairwise_insertByKeyDesc {key : α → Nat} {x : α} {l : List α}
    (h : l.Pairwise (fun a b => key b ≤ key a)) :
    (insertByKeyDesc key x l).Pairwise (fun a b => key b ≤ key a) := by
  induction l with
  | nil => simp [insertByKeyDesc]
  | cons y ys ih =>
    unfold insertByKeyDesc
    rcases List.pairwise_cons.mp h with ⟨hy, hys⟩
    split
    · next hle =>
      refine List.pairwise_cons.mpr ⟨?_, h⟩
      intro z hz
      rcases List.mem_cons.mp hz with rfl | hz
      · exact hle
      · exact le_trans (hy z hz) hle
    · next hgt =>
      push_neg at hgt
      refine List.pairwise_cons.mpr ⟨?_, ih hys⟩
      intro z hz
      rcases mem_insertByKeyDesc.mp hz with rfl | hz
      · exact le_of_lt hgt
      · exact hy z hz

theorem pairwise_sortByKeyDesc (key : α → Nat) (l : List α) :
    (sortByKeyDesc key l).Pairwise (fun a b => key b ≤ key a) := by
  induction l with
  | nil => simp [sortByKeyDesc]
  | cons x xs ih => exact pairwise_insertByKeyDesc ih

/-- One guarded push against a "seen keys" set: the shape shared by the
dedup loops of the contact extractor (keyed by contact value), the signal
analyzer (keyed by signal type) and the people extractor (keyed by
lower-cased name). -/
def dedupPush (key : α → String) (st : List String × List α) (x : α) :
    List String × List α :=
  if st.1.contains (key x) then st else (st.1 ++ [key x], st.2 ++ [x])

/-- Invariant maintained by `dedupPush`: accumulated keys are distinct and
all recorded in the seen set. -/
def DedupInv (key : α → String) (st : List String × List α) : Prop :=
  (st.2.map key).Nodup ∧ ∀ v ∈ st.2.map key, v ∈ st.1

theorem dedupInv_push {key : α → String} {st : List String × List α}
    (h : DedupInv key st) (x : α) : DedupInv key (dedupPush key st x) := by
  rcases h with ⟨hnd, hsub⟩
  unfold dedupPush
  split
  · exact ⟨hnd, hsub⟩
  · next hc =>
    simp only [List.contains, List.elem_iff] at hc
    constructor
    · rw [List.map_append]
      simp only [List.map_cons, List.map_nil]
      rw [List.nodup_append]
      refine ⟨hnd, by simp, ?_⟩
      intro v hv
      simp only [List.mem_singleton]
      intro hvx
      exact hc (hvx ▸ hsub v hv)
    · intro v hv
      rw [List.map_append] at hv
      rcases List.mem_append.mp hv with hv | hv
      · exact List.mem_append_left _ (hsub v hv)
      · simp only [List.map_cons, List.map_nil, List.mem_singleton] at hv
        exact List.mem_append_right _ (by simp [hv])

theorem dedupInv_foldl {key : α → String} {st : List String × List α}
    (h : DedupInv key st) (l : List α) :
    DedupInv key (l.foldl (dedupPush key) st) := by
  induction l generalizing st with
  | nil => exact h
  | cons x xs ih => exact ih (dedupInv_push h x)

theorem dedupInv_init {key : α → String} : DedupInv key ([], []) := by
  constructor <;> simp [DedupInv]

theorem dedupInv_foldl_comp {key : α → String} (g : β → α) :
    ∀ (l : List β) (st : List String × List α), DedupInv key st →
      DedupInv key (l.foldl (fun st x => dedupPush key st (g x)) st) := by
  intro l
  induction l with
  | nil => intro st h; simpa using h
  | cons x xs ih =>
    intro st h
    simp only [List.foldl_cons]
    exact ih _ (dedupInv_push h (g x))

/-! ## Crawler (`src/qualification/crawler.ts`) -/

/-- One fetched page, mirroring the `CrawlResult` interface of
`crawler.ts`. -/
structure CrawlResult where
  url : String
  html : String
  text : String
  links : List String
  success : Bool
  error : Option String
deriving DecidableEq

/-- Hostname and pathname of a parsed URL, the two observations
`crawlCompanyWebsite` makes of `new URL(...)`. -/
structure UrlParts where
  hostname : String
  pathname : String
deriving DecidableEq

/-- The foreign platform pieces the crawler calls: `fetchPage` (the
rate-limited network fetch together with cheerio's text/link extraction),
`new URL(s)` (`parseUrl`, `none` when the constructor throws) and
`new URL(path, base).toString()` (`resolveUrl`, `none` when it throws). -/
structure CrawlEnv where
  fetchPage : String → CrawlResult
  parseUrl : String → Option UrlParts
  resolveUrl : String → String → Option String

/-- The `RELEVANT_PATHS` table of `crawler.ts`, in source order. -/
def RELEVANT_PATHS : List String :=
  ["/", "/about", "/about-us", "/brand", "/community", "/sustainability",
   "/partnerships", "/partners", "/sponsorship", "/sponsorships", "/press",
   "/news", "/newsroom", "/media", "/contact", "/team", "/leadership",
   "/our-team", "/about/team"]

/-- `normalizeUrl` of `crawler.ts`: absolute URLs pass through, other
link targets are resolved against the base, and a resolution failure
yields the empty string. -/
def normalizeUrl (env : CrawlEnv) (baseUrl path : String) : String :=
  if strStartsWith path "http://" || strStartsWith path "https://" then path
  else
    match env.resolveUrl baseUrl path with
    | some u => u
    | none => ""

/-- Base-URL normalization at the top of `crawlCompanyWebsite`: force a
scheme (any base not starting with "http" gets "https://" prepended) and
strip one trailing slash (`replace(/\/$/, '')`). -/
def normalizeBase (baseUrl : String) : String :=
  let withScheme :=
    if strStartsWith baseUrl "http" then baseUrl else "https://" ++ baseUrl
  if strEndsWith withScheme "/" then strDropRight withScheme 1 else withScheme

/-- The link scan of `crawlCompanyWebsite`: each homepage link is
normalized, parsed, restricted to the base host, lower-cased and compared
against `RELEVANT_PATHS` (exact or with a trailing slash); the original
pathname of a match is added to the `foundPaths` set. -/
def collectFoundStep (env : CrawlEnv) (base : String) (acc : List String)
    (link : String) : List String :=
  let normalized := normalizeUrl env base link
  if normalized = "" then acc
  else
    match env.parseUrl normalized, env.parseUrl base with
    | some linkUrl, some baseParts =>
      if linkUrl.hostname ≠ baseParts.hostname then acc
      else
        let path := strToLower linkUrl.pathname
        if RELEVANT_PATHS.any (fun rp => path == rp || path == rp ++ "/") then
          insertUnique acc linkUrl.pathname
        else acc
    | _, _ => acc

/-- The `foundPaths` set after the link loop of `crawlCompanyWebsite`. -/
def collectFoundPaths (env : CrawlEnv) (base : String) (links : List String) :
    List String :=
  links.foldl (collectFoundStep env base) []

/-- The union step of `crawlCompanyWebsite`: every allow-listed path other
than "/" is added to the found set. -/
def unionRelevantPaths (found : List String) : List String :=
  RELEVANT_PATHS.foldl
    (fun acc p => if p ≠ "/" then insertUnique acc p else acc) found

/-- `results.set(path, r)` on the insertion-ordered JavaScript `Map`:
replace in place when the key exists, append otherwise. -/
def mapSet (m : List (String × CrawlResult)) (k : String) (v : CrawlResult) :
    List (String × CrawlResult) :=
  if m.any (fun kv => kv.1 == k) then
    m.map (fun kv => if kv.1 == k then (k, v) else kv)
  else m ++ [(k, v)]

/-- What one crawl produced: the keyed page collection, the full list of
URLs passed to `fetchPage` in request order, and the sub-paths fetched
after the homepage. -/
structure CrawlOutcome where
  results : List (String × CrawlResult)
  requests : List String
  pathsFetched : List String
deriving DecidableEq

/-- `crawlCompanyWebsite` of `crawler.ts`: normalize the base, fetch the
homepage (keyed "/"), stop on a failed homepage, otherwise union the
link-derived relevant paths with the allow-list, fetch the first 10
(`slice(0, 10)`) and store only the successful sub-page results. -/
def crawlCompanyWebsite (env : CrawlEnv) (baseUrl : String) : CrawlOutcome :=
  let base := normalizeBase baseUrl
  let homepage := env.fetchPage base
  if homepage.success then
    let found := collectFoundPaths env base homepage.links
    let pathsToFetch := (unionRelevantPaths found).take 10
    let final := pathsToFetch.foldl
      (fun (st : List (String × CrawlResult) × List String) path =>
        let url := base ++ path
        let r := env.fetchPage url
        (if r.success then mapSet st.1 path r else st.1, st.2 ++ [url]))
      ([("/", homepage)], [base])
    ⟨final.1, final.2, pathsToFetch⟩
  else ⟨[("/", homepage)], [base], []⟩

theorem nodup_collectFoundStep {acc : List String} (h : acc.Nodup)
    (env : CrawlEnv) (base link : String) :
    (collectFoundStep env base acc link).Nodup := by
  simp only [collectFoundStep]
  split
  · exact h
  · split
    · split
      · exact h
      · split
        · exact nodup_insertUnique h _
        · exact h
    · exact h

theorem nodup_collectFoundPaths (env : CrawlEnv) (base : String)
    (links : List String) : (collectFoundPaths env base links).Nodup := by
  unfold collectFoundPaths
  suffices h : ∀ acc : List String, acc.Nodup →
      (links.foldl (collectFoundStep env base) acc).Nodup from h [] (by simp)
  induction links with
  | nil => intro acc h; simpa using h
  | cons l ls ih =>
    intro acc h
    simp only [List.foldl_cons]
    exact ih _ (nodup_collectFoundStep h env base l)

theorem nodup_unionRelevantPaths {found : List String} (h : found.Nodup) :
    (unionRelevantPaths found).Nodup := by
  unfold unionRelevantPaths
  suffices haux : ∀ (ps : List String) (acc : List String), acc.Nodup →
      (ps.foldl (fun acc p => if p ≠ "/" then insertUnique acc p else acc)
        acc).Nodup from haux RELEVANT_PATHS found h
  intro ps
  induction ps with
  | nil => intro acc h; simpa using h
  | cons p rest ih =>
    intro acc h
    simp only [List.foldl_cons]
    apply ih
    split
    · exact nodup_insertUnique h p
    · exact h

/-- C2: if the homepage fetch fails, the crawl returns the single failed
homepage entry (keyed "/") and the request log holds exactly the one
homepage request — no further fetch is attempted. -/
theorem crawl_homepage_failure_failfast (env : CrawlEnv) (baseUrl : String)
    (h : (env.fetchPage (normalizeBase baseUrl)).success = false) :
    (crawlCompanyWebsite env baseUrl).results
        = [("/", env.fetchPage (normalizeBase baseUrl))] ∧
    (crawlCompanyWebsite env baseUrl).results.length = 1 ∧
    (crawlCompanyWebsite env baseUrl).requests = [normalizeBase baseUrl] := by
  unfold crawlCompanyWebsite
  simp [h]

/-- An environment whose fetches always fail and whose URL operations
always throw. -/
def failEnv : CrawlEnv where
  fetchPage := fun u => ⟨u, "", "", [], false, some "fetch failed"⟩
  parseUrl := fun _ => none
  resolveUrl := fun _ _ => none

/-- Witness for `crawl_homepage_failure_failfast` at a concrete failing
environment. -/
theorem crawl_homepage_failure_failfast_witness :
    (crawlCompanyWebsite failEnv "example.com").results
        = [("/", failEnv.fetchPage (normalizeBase "example.com"))] ∧
    (crawlCompanyWebsite failEnv "example.com").results.length = 1 ∧
    (crawlCompanyWebsite failEnv "example.com").requests
        = [normalizeBase "example.com"] :=
  crawl_homepage_failure_failfast failEnv "example.com" rfl

/-- C7 (amended): on a successful crawl at most 10 sub-paths are fetched
beyond the homepage and no sub-path is fetched twice; any path other than
the homepage path "/" is requested at most once overall.  (The claim's
stronger reading — that no URL at all, the homepage included, is requested
twice — fails: see the counterexample.) -/
theorem crawl_fetch_cap_and_nodup (env : CrawlEnv) (baseUrl : String)
    (h : (env.fetchPage (normalizeBase baseUrl)).success = true) :
    (crawlCompanyWebsite env baseUrl).pathsFetched.length ≤ 10 ∧
    (crawlCompanyWebsite env baseUrl).pathsFetched.Nodup ∧
    ∀ p : String, p ≠ "/" →
      ("/" :: (crawlCompanyWebsite env baseUrl).pathsFetched).count p ≤ 1 := by
  have hpf : (crawlCompanyWebsite env baseUrl).pathsFetched
      = (unionRelevantPaths (collectFoundPaths env (normalizeBase baseUrl)
          (env.fetchPage (normalizeBase baseUrl)).links)).take 10 := by
    unfold crawlCompanyWebsite
    simp [h]
  have hnd : (crawlCompanyWebsite env baseUrl).pathsFetched.Nodup := by
    rw [hpf]
    exact (List.take_sublist _ _).nodup
      (nodup_unionRelevantPaths (nodup_collectFoundPaths _ _ _))
  refine ⟨?_, hnd, ?_⟩
  · rw [hpf, List.length_take]
    exact min_le_left _ _
  · intro p hp
    rw [List.count_cons_of_ne hp]
    exact List.nodup_iff_count_le_one.mp hnd p

/-- A concrete environment for the site `https://ex.com`, whose homepage
links back to its own root path "/".  `parseUrl` and `resolveUrl` follow
the WHATWG `URL` behaviour on these inputs (an absent path parses as
pathname "/"). -/
def crawlDemoEnv : CrawlEnv where
  fetchPage := fun u =>
    if u = "https://ex.com" then ⟨u, "", "", ["/"], true, none⟩
    else ⟨u, "", "", [], true, none⟩
  parseUrl := fun s =>
    if strStartsWith s "https://ex.com" then
      some ⟨"ex.com", if strDrop s 14 = "" then "/" else strDrop s 14⟩
    else none
  resolveUrl := fun base path =>
    if base = "https://ex.com" && strStartsWith path "/" then
      some ("https://ex.com" ++ path)
    else none

/-- C7 counterexample: when the homepage links to "/", the already-fetched
homepage path "/" is fetched again (it is excluded only from the
allow-list union, not from the link-derived set), so two requests of the
crawl parse to the same URL — the claim that no URL, in particular the
homepage, is requested twice is false. -/
theorem crawl_homepage_refetch_cx :
    "/" ∈ (crawlCompanyWebsite crawlDemoEnv "ex.com").pathsFetched ∧
    ¬ (((crawlCompanyWebsite crawlDemoEnv "ex.com").requests.map
        crawlDemoEnv.parseUrl).Nodup) := by
  decide

/-- Witness for `crawl_fetch_cap_and_nodup` at the concrete demo
environment. -/
theorem crawl_fetch_cap_and_nodup_witness :
    (crawlCompanyWebsite crawlDemoEnv "ex.com").pathsFetched.length ≤ 10 ∧
    (crawlCompanyWebsite crawlDemoEnv "ex.com").pathsFetched.Nodup ∧
    ∀ p : String, p ≠ "/" →
      ("/" :: (crawlCompanyWebsite crawlDemoEnv "ex.com").pathsFetched).count p
        ≤ 1 :=
  crawl_fetch_cap_and_nodup crawlDemoEnv "ex.com" (by decide)

/-- C8 counterexample: for the unparseable base URL "not a url" (its
normalization does not parse as a URL) the crawler still passes the
invalid URL to the fetcher — the request log is not empty, so a fetch
request is attempted, contradicting the claim that the invalid input is
rejected before any fetch. -/
theorem crawl_invalid_base_fetch_cx :
    failEnv.parseUrl (normalizeBase "not a url") = none ∧
    (crawlCompanyWebsite failEnv "not a url").requests = ["https://not a url"] ∧
    (crawlCompanyWebsite failEnv "not a url").requests ≠ [] := by
  decide

/-- C8 (amended): an unparseable base URL is not rejected up front; the
crawler normalizes it, hands it to the fetcher (exactly one request, the
invalid URL itself), and surfaces the fetcher's failure result to the
caller as the single failed homepage entry. -/
theorem crawl_invalid_base_failure (env : CrawlEnv) (baseUrl : String)
    (hparse : env.parseUrl (normalizeBase baseUrl) = none)
    (hfail : (env.fetchPage (normalizeBase baseUrl)).success = false) :
    (crawlCompanyWebsite env baseUrl).requests = [normalizeBase baseUrl] ∧
    (crawlCompanyWebsite env baseUrl).results
        = [("/", env.fetchPage (normalizeBase baseUrl))] ∧
    (env.fetchPage (normalizeBase baseUrl)).success = false := by
  refine ⟨?_, ?_, hfail⟩ <;>
    · unfold crawlCompanyWebsite
      simp [hfail]

/-- Witness for `crawl_invalid_base_failure` at the always-failing
environment and the unparseable base "not a url". -/
theorem crawl_invalid_base_failure_witness :
    (crawlCompanyWebsite failEnv "not a url").requests
        = [normalizeBase "not a url"] ∧
    (crawlCompanyWebsite failEnv "not a url").results
        = [("/", failEnv.fetchPage (normalizeBase "not a url"))] ∧
    (failEnv.fetchPage (normalizeBase "not a url")).success = false :=
  crawl_invalid_base_failure failEnv "not a url" rfl rfl

/-! ## Contact extractor (`src/contacts/extractor.ts`) -/

/-- The `pathType` discriminator of `ExtractedContact`. -/
inductive ContactPathType
  | email
  | form
  | agency
  | press
deriving DecidableEq

/-- One extracted contact path, mirroring the `ExtractedContact`
interface (`emailType` is optional there, so it is an `Option` here). -/
structure ExtractedContact where
  pathType : ContactPathType
  value : String
  emailType : Option String
  confidenceScore : Nat
  sourceUrl : String
deriving DecidableEq

/-- The `EMAIL_PRIORITY` table, in the source's insertion order (plain
string keys of a JavaScript object literal preserve insertion order). -/
def EMAIL_PRIORITY : List (String × Nat) :=
  [("partnerships", 100), ("partner", 95), ("sponsorship", 95),
   ("sponsor", 90), ("marketing", 80), ("brand", 75), ("press", 60),
   ("media", 60), ("pr", 55), ("info", 40), ("contact", 35), ("hello", 30)]

/-- `email.split('@')[0].toLowerCase()`: the local part inspected by the
classifier. -/
def emailLocalPart (email : String) : String :=
  strToLower ((strSplitOnChar '@' email).headD "")

/-- `isValidEmail` of `extractor.ts`: reject when there is no non-empty
domain part, when the domain contains a blacklisted placeholder domain as
a substring, or when the whole address exceeds 100 characters. -/
def isValidEmail (email : String) : Bool :=
  let blacklist := ["example.com", "email.com", "domain.com", "test.com"]
  let domain := (strSplitOnChar '@' email).getD 1 ""
  if domain = "" then false
  else if blacklist.any (fun b => strIncludes domain b) then false
  else if email.length > 100 then false
  else true

/-- `createEmailContact` of `extractor.ts`: the first `EMAIL_PRIORITY`
keyword contained in the local part decides sub-type and confidence; no
match falls back to sub-type "general" with confidence 20. -/
def createEmailContact (email sourceUrl : String) : ExtractedContact :=
  match EMAIL_PRIORITY.find? (fun p => strIncludes (emailLocalPart email) p.1) with
  | some (ty, sc) => ⟨.email, email, some ty, sc, sourceUrl⟩
  | none => ⟨.email, email, some "general", 20, sourceUrl⟩

/-- `href.replace('mailto:', '')` for an href produced by the
`a[href^="mailto:"]` selector, which guarantees the prefix, so the
first-occurrence replace is a prefix drop. -/
def stripMailto (href : String) : String :=
  if strStartsWith href "mailto:" then strDrop href 7 else href

/-- The mailto loop body of `extractEmails` of `extractor.ts`: strip the
`mailto:` scheme and any query suffix, lower-case, and push when valid
(unchecked against earlier contacts). -/
def mailtoStep (sourceUrl : String) (acc : List ExtractedContact)
    (href : String) : List ExtractedContact :=
  let email := strToLower ((strSplitOnChar '?' (stripMailto href)).headD "")
  if isValidEmail email then acc ++ [createEmailContact email sourceUrl]
  else acc

/-- The free-text loop body of `extractEmails`: a lower-cased regex match
is pushed only when valid and not already collected. -/
def textEmailStep (sourceUrl : String) (acc : List ExtractedContact)
    (m : String) : List ExtractedContact :=
  let lower := strToLower m
  if isValidEmail lower && !(acc.any (fun c => c.value == lower)) then
    acc ++ [createEmailContact lower sourceUrl]
  else acc

/-- `extractEmails` of `extractor.ts`.  The cheerio/regex scanning of the
raw HTML is abstracted: `mailtoHrefs` are the href values of the mailto
links in document order, `textMatches` the email-regex matches over the
body text in order.  The mailto pass runs first, then the free-text pass
over the same accumulating contact array. -/
def extractEmails (mailtoHrefs textMatches : List String)
    (sourceUrl : String) : List ExtractedContact :=
  textMatches.foldl (textEmailStep sourceUrl)
    (mailtoHrefs.foldl (mailtoStep sourceUrl) [])

/-- One HTML form as the extractor observes it: its action attribute,
whether it has an email input or a textarea, and the result of
`new URL(action, baseUrl).toString()` (`none` when that throws). -/
structure FormInfo where
  action : String
  hasEmailField : Bool
  hasTextarea : Bool
  resolvedAction : Option String
deriving DecidableEq

/-- `extractContactForms` of `extractor.ts`: forms with an email input or
a textarea count; the value is the resolved action URL, falling back to
the source page URL when the action is empty, a `javascript:` target or
unresolvable; fixed confidence 40. -/
def extractContactForms (forms : List FormInfo) (sourceUrl : String) :
    List ExtractedContact :=
  forms.foldl
    (fun acc f =>
      if f.hasEmailField || f.hasTextarea then
        let formUrl :=
          if f.action ≠ "" && !(strStartsWith f.action "javascript:") then
            f.resolvedAction.getD sourceUrl
          else sourceUrl
        acc ++ [⟨.form, formUrl, none, 40, sourceUrl⟩]
      else acc)
    []

/-- `extractAgencyMentions` of `extractor.ts`: the agency-pattern capture
groups (abstracted as `captures`, in match order over both patterns) are
kept when their length is strictly between 3 and 50, trimmed, at fixed
confidence 50. -/
def extractAgencyMentions (captures : List String) (sourceUrl : String) :
    List ExtractedContact :=
  captures.foldl
    (fun acc m =>
      if m.length > 3 && m.length < 50 then
        acc ++ [⟨.agency, strTrim m, none, 50, sourceUrl⟩]
      else acc)
    []

/-- One crawled page as the contact extractor observes it: success flag,
the page URL used as `sourceUrl`, and the scanning artifacts of the three
extraction passes. -/
structure ContactPage where
  url : String
  success : Bool
  mailtoHrefs : List String
  textEmailMatches : List String
  forms : List FormInfo
  agencyMatches : List String
deriving DecidableEq

/-- The per-page step of `extractContacts`: emails always, forms only on
contact/partner pages or the homepage, agency mentions always, each
guarded by the cross-page seen-value set. -/
def extractContactsStep (st : List String × List ExtractedContact)
    (entry : String × ContactPage) : List String × List ExtractedContact :=
  if entry.2.success then
    let st := (extractEmails entry.2.mailtoHrefs entry.2.textEmailMatches
      entry.2.url).foldl (dedupPush ExtractedContact.value) st
    let st :=
      if strIncludes entry.1 "contact" || strIncludes entry.1 "partner"
          || entry.1 == "/" then
        (extractContactForms entry.2.forms entry.2.url).foldl
          (dedupPush ExtractedContact.value) st
      else st
    (extractAgencyMentions entry.2.agencyMatches entry.2.url).foldl
      (dedupPush ExtractedContact.value) st
  else st

/-- `extractContacts` of `extractor.ts`: iterate the crawl results in
insertion order, deduplicate by contact value across the whole run, then
stable-sort descending by confidence score. -/
def extractContacts (crawlResults : List (String × ContactPage))
    (baseUrl : String) : List ExtractedContact :=
  sortByKeyDesc ExtractedContact.confidenceScore
    (crawlResults.foldl extractContactsStep ([], [])).2

theorem createEmailContact_value (email src : String) :
    (createEmailContact email src).value = email := by
  unfold createEmailContact
  split <;> rfl

theorem mailtoFold_valid (src : String) (hrefs : List String) :
    ∀ acc, (∀ x ∈ acc, isValidEmail x.value = true) →
      ∀ x ∈ hrefs.foldl (mailtoStep src) acc, isValidEmail x.value = true := by
  induction hrefs with
  | nil => intro acc h; simpa using h
  | cons hd tl ih =>
    intro acc h
    simp only [List.foldl_cons]
    apply ih
    intro x hx
    simp only [mailtoStep] at hx
    split at hx
    · next hvalid =>
      rcases List.mem_append.mp hx with hx | hx
      · exact h x hx
      · simp only [List.mem_singleton] at hx
        subst hx
        rw [createEmailContact_value]
        exact hvalid
    · exact h x hx

theorem textFold_valid (src : String) (texts : List String) :
    ∀ acc, (∀ x ∈ acc, isValidEmail x.value = true) →
      ∀ x ∈ texts.foldl (textEmailStep src) acc, isValidEmail x.value = true := by
  induction texts with
  | nil => intro acc h; simpa using h
  | cons hd tl ih =>
    intro acc h
    simp only [List.foldl_cons]
    apply ih
    intro x hx
    simp only [textEmailStep] at hx
    split at hx
    · next hcond =>
      rcases List.mem_append.mp hx with hx | hx
      · exact h x hx
      · simp only [List.mem_singleton] at hx
        subst hx
        rw [createEmailContact_value]
        exact (Bool.and_eq_true_iff.mp hcond).1
    · exact h x hx

theorem extractEmails_all_valid (hrefs texts : List String) (src : String) :
    ∀ x ∈ extractEmails hrefs texts src, isValidEmail x.value = true := by
  unfold extractEmails
  exact textFold_valid src texts _ (mailtoFold_valid src hrefs [] (by simp))

/-- C4: "info@example.com" is rejected by validation and can never appear
as a value of `extractEmails`; "partnerships@realcompany.com" is accepted
and classified as "partnerships" with confidence 100; classification
takes the first `EMAIL_PRIORITY` keyword contained in the local part
(earlier entries win), and a local part matching no keyword falls back to
sub-type "general" with default confidence 20. -/
theorem email_validation_and_priority :
    isValidEmail "info@example.com" = false ∧
    (∀ (hrefs texts : List String) (src : String),
      "info@example.com" ∉ (extractEmails hrefs texts src).map
        ExtractedContact.value) ∧
    isValidEmail "partnerships@realcompany.com" = true ∧
    (∀ src : String, createEmailContact "partnerships@realcompany.com" src
      = ⟨.email, "partnerships@realcompany.com", some "partnerships", 100, src⟩) ∧
    (∀ (email src : String) (ks₁ ks₂ : List (String × Nat)) (ty : String)
        (sc : Nat),
      EMAIL_PRIORITY = ks₁ ++ (ty, sc) :: ks₂ →
      (∀ p ∈ ks₁, strIncludes (emailLocalPart email) p.1 = false) →
      strIncludes (emailLocalPart email) ty = true →
      createEmailContact email src = ⟨.email, email, some ty, sc, src⟩) ∧
    (∀ email src : String,
      (∀ p ∈ EMAIL_PRIORITY, strIncludes (emailLocalPart email) p.1 = false) →
      createEmailContact email src = ⟨.email, email, some "general", 20, src⟩) := by
  refine ⟨by decide, ?_, by decide, fun src => rfl, ?_, ?_⟩
  · intro hrefs texts src hmem
    rw [List.mem_map] at hmem
    obtain ⟨x, hx, hval⟩ := hmem
    have hv := extractEmails_all_valid hrefs texts src x hx
    rw [hval] at hv
    exact absurd hv (by decide)
  · intro email src ks₁ ks₂ ty sc heq hks₁ hty
    unfold createEmailContact
    rw [heq, List.find?_append]
    have h1 : ks₁.find? (fun p => strIncludes (emailLocalPart email) p.1) = none := by
      rw [List.find?_eq_none]
      intro p hp
      simp [hks₁ p hp]
    rw [h1, Option.none_or]
    have h2 : List.find? (fun p => strIncludes (emailLocalPart email) p.1)
        ((ty, sc) :: ks₂) = some (ty, sc) :=
      List.find?_cons_of_pos _ (by simpa using hty)
    rw [h2]
  · intro email src h
    unfold createEmailContact
    have h1 : EMAIL_PRIORITY.find?
        (fun p => strIncludes (emailLocalPart email) p.1) = none := by
      rw [List.find?_eq_none]
      intro p hp
      simp [h p hp]
    rw [h1]

/-- Witness for `email_validation_and_priority`: "sponsorship@x.com"
passes the two earlier keywords and classifies as "sponsorship"/95, and
"bob@x.com" matches no keyword, classifying as "general"/20. -/
theorem email_validation_and_priority_witness :
    createEmailContact "sponsorship@x.com" "https://x.com"
      = ⟨.email, "sponsorship@x.com", some "sponsorship", 95, "https://x.com"⟩ ∧
    createEmailContact "bob@x.com" "https://x.com"
      = ⟨.email, "bob@x.com", some "general", 20, "https://x.com"⟩ :=
  ⟨email_validation_and_priority.2.2.2.2.1 "sponsorship@x.com" "https://x.com"
      [("partnerships", 100), ("partner", 95)]
      [("sponsor", 90), ("marketing", 80), ("brand", 75), ("press", 60),
       ("media", 60), ("pr", 55), ("info", 40), ("contact", 35), ("hello", 30)]
      "sponsorship" 95 rfl (by decide) (by decide),
   email_validation_and_priority.2.2.2.2.2 "bob@x.com" "https://x.com"
      (by decide)⟩

theorem dedupInv_extractContactsStep
    {st : List String × List ExtractedContact}
    (h : DedupInv ExtractedContact.value st) (e : String × ContactPage) :
    DedupInv ExtractedContact.value (extractContactsStep st e) := by
  simp only [extractContactsStep]
  split
  · apply dedupInv_foldl
    split
    · exact dedupInv_foldl (dedupInv_foldl h _) _
    · exact dedupInv_foldl h _
  · exact h

/-- C5: for every input page set and base URL, the contact list returned
by `extractContacts` is sorted non-increasing by confidence score, and no
two contacts in it share the same value. -/
theorem extractContacts_sorted_and_value_nodup
    (crawlResults : List (String × ContactPage)) (baseUrl : String) :
    (extractContacts crawlResults baseUrl).Pairwise
      (fun a b => b.confidenceScore ≤ a.confidenceScore) ∧
    ((extractContacts crawlResults baseUrl).map ExtractedContact.value).Nodup := by
  constructor
  · exact pairwise_sortByKeyDesc _ _
  · have hinv : ∀ st, DedupInv ExtractedContact.value st →
        DedupInv ExtractedContact.value
          (crawlResults.foldl extractContactsStep st) := by
      induction crawlResults with
      | nil => intro st h; simpa using h
      | cons e rest ih =>
        intro st h
        simp only [List.foldl_cons]
        exact ih _ (dedupInv_extractContactsStep h e)
    have hnd := (hinv ([], []) dedupInv_init).1
    unfold extractContacts
    exact ((perm_sortByKeyDesc ExtractedContact.confidenceScore _).map
      ExtractedContact.value).symm.nodup hnd

/-! ## Signal analyzer (`src/qualification/analyzer.ts`) -/

/-- One detected signal, mirroring the `SignalMatch` interface. -/
structure SignalMatch where
  type : String
  text : String
  score : Nat
deriving DecidableEq

/-- The categories and weights of the `SIGNAL_PATTERNS` table, in the
source's insertion order (their regex pattern lists are abstracted by the
match oracle of `findSignals`). -/
def SIGNAL_PATTERNS : List (String × Nat) :=
  [("sport", 15), ("youth", 20), ("culture", 20), ("community", 15),
   ("partnership", 25), ("previous_sponsorship", 30), ("events", 10)]

/-- `findSignals` of `analyzer.ts`.  The JavaScript regex engine is
abstracted by `matchSnippet`: for a category and a text it returns the
whitespace-collapsed ±50-character context of the first match of the
first matching pattern of that category, or `none` when no pattern of the
category matches.  Each matching category contributes exactly one signal
(the `break` after the first matching pattern). -/
def findSignals (matchSnippet : String → String → Option String)
    (text : String) : List SignalMatch :=
  SIGNAL_PATTERNS.foldl
    (fun acc p =>
      match matchSnippet p.1 text with
      | some ctx => acc ++ [⟨p.1, "..." ++ ctx ++ "...", p.2⟩]
      | none => acc)
    []

/-- The per-page step of `analyzePageContent`: each signal of a
successful page is pushed, prefixed with the page path, unless its type
was already seen on an earlier page. -/
def analyzePageStep (matchSnippet : String → String → Option String)
    (st : List String × List SignalMatch)
    (entry : String × CrawlResult) : List String × List SignalMatch :=
  if entry.2.success then
    (findSignals matchSnippet entry.2.text).foldl
      (fun st s =>
        dedupPush SignalMatch.type st
          ⟨s.type, "[" ++ entry.1 ++ "] " ++ s.text, s.score⟩)
      st
  else st

/-- `analyzePageContent` of `analyzer.ts`: iterate the crawl results in
insertion order, keeping each signal type only once across all pages. -/
def analyzePageContent (matchSnippet : String → String → Option String)
    (crawlResults : List (String × CrawlResult)) : List SignalMatch :=
  (crawlResults.foldl (analyzePageStep matchSnippet) ([], [])).2

/-- `calculateQualificationScore` of `analyzer.ts`. -/
def calculateQualificationScore (signals : List SignalMatch) : Nat :=
  signals.foldl (fun total s => total + s.score) 0

/-- C6: for every match oracle and input page set, no two signals in the
output of `analyzePageContent` share the same category. -/
theorem analyzePageContent_type_nodup
    (matchSnippet : String → String → Option String)
    (crawlResults : List (String × CrawlResult)) :
    ((analyzePageContent matchSnippet crawlResults).map SignalMatch.type).Nodup := by
  have hstep : ∀ (st : List String × List SignalMatch)
      (e : String × CrawlResult), DedupInv SignalMatch.type st →
      DedupInv SignalMatch.type (analyzePageStep matchSnippet st e) := by
    intro st e h
    unfold analyzePageStep
    split
    · exact dedupInv_foldl_comp
        (fun s => ⟨s.type, "[" ++ e.1 ++ "] " ++ s.text, s.score⟩)
        (findSignals matchSnippet e.2.text) st h
    · exact h
  have hall : ∀ st, DedupInv SignalMatch.type st →
      DedupInv SignalMatch.type
        (crawlResults.foldl (analyzePageStep matchSnippet) st) := by
    induction crawlResults with
    | nil => intro st h; simpa using h
    | cons e rest ih =>
      intro st h
      simp only [List.foldl_cons]
      exact ih _ (hstep st e h)
  exact (hall ([], []) dedupInv_init).1

/-! ## People extractor (`src/people/extractor.ts`) and the people merge
of the qualify command (`src/index.ts`) -/

/-- One extracted person, mirroring the `ExtractedPerson` interface. -/
structure ExtractedPerson where
  name : String
  jobTitle : Option String
  department : Option String
  sourceUrl : String
  linkedinSearchUrl : String
deriving DecidableEq

/-- The team-page test of `extractPeople`:
`path.includes('team') || path.includes('leadership') ||
path.includes('about')`. -/
def isTeamPagePath (path : String) : Bool :=
  strIncludes path "team" || strIncludes path "leadership"
    || strIncludes path "about"

/-- One crawled page as the people extractor observes it.  The
cheerio/regex scans are abstracted: `teamPeople` is the output of
`extractPeopleFromTeamPage` on the page's HTML (name-shape and
role-relevance checks already applied there), `textPeople` the output of
`extractPeopleFromText` on the page's text. -/
structure PeoplePage where
  url : String
  success : Bool
  teamPeople : List ExtractedPerson
  textPeople : List ExtractedPerson
deriving DecidableEq

/-- The per-page step of `extractPeople`: the structural pass runs only
on team/leadership/about pages, the free-text pass on every successful
page; each person is pushed unless the lower-cased name was already
seen. -/
def extractPeopleStep (st : List String × List ExtractedPerson)
    (entry : String × PeoplePage) : List String × List ExtractedPerson :=
  if entry.2.success then
    ((if isTeamPagePath entry.1 then entry.2.teamPeople else [])
        ++ entry.2.textPeople).foldl
      (dedupPush (fun p => strToLower p.name)) st
  else st

/-- `extractPeople` of `extractor.ts`: iterate the crawl results in
insertion order, deduplicating by lower-cased full name across pages. -/
def extractPeople (crawlResults : List (String × PeoplePage)) :
    List ExtractedPerson :=
  (crawlResults.foldl extractPeopleStep ([], [])).2

/-- The people merge of the qualify command (`src/index.ts`): the
Wikipedia pass (`extractPeopleFromWikipedia`, an external network call
returning zero or more persons, abstracted here as the list it returned)
is concatenated to the crawl-extracted people with no further
deduplication, and the concatenation is what `savePeople` stores. -/
def mergedQualifyPeople (crawlResults : List (String × PeoplePage))
    (wikiPeople : List ExtractedPerson) : List ExtractedPerson :=
  extractPeople crawlResults ++ wikiPeople

/-- A one-page crawl whose free-text pass finds "John Smith". -/
def johnSmithPages : List (String × PeoplePage) :=
  [("/about", ⟨"https://ex.com/about", true, [],
    [⟨"John Smith", some "Marketing Director", some "marketing",
      "https://ex.com/about", "https://linkedin.example/john"⟩]⟩)]

/-- The same person as the Wikipedia infobox pass returns him. -/
def johnSmithWiki : List ExtractedPerson :=
  [⟨"John Smith", some "CEO", none, "https://en.wikipedia.org/wiki/Ex",
    "https://linkedin.example/john2"⟩]

/-- C9 counterexample: the saved people list of a qualification run is
the crawl-extracted list concatenated with the Wikipedia list, with no
deduplication across the two sources, so "John Smith" found on the about
page and again in the Wikipedia infobox appears twice — the lower-cased
names of the saved list are not distinct. -/
theorem mergedPeople_dup_cx :
    ¬ ((mergedQualifyPeople johnSmithPages johnSmithWiki).map
        (fun p => strToLower p.name)).Nodup := by
  decide

/-- C9 (amended): `extractPeople` itself (the structural and free-text
passes over the crawl) is deduplicated by lower-cased full name; only the
separately appended Wikipedia pass can introduce a duplicate into the
saved list. -/
theorem extractPeople_name_nodup (crawlResults : List (String × PeoplePage)) :
    ((extractPeople crawlResults).map (fun p => strToLower p.name)).Nodup := by
  have hstep : ∀ (st : List String × List ExtractedPerson)
      (e : String × PeoplePage),
      DedupInv (fun p => strToLower p.name) st →
      DedupInv (fun p => strToLower p.name) (extractPeopleStep st e) := by
    intro st e h
    unfold extractPeopleStep
    split
    · exact dedupInv_foldl h _
    · exact h
  have hall : ∀ st, DedupInv (fun p => strToLower p.name) st →
      DedupInv (fun p => strToLower p.name)
        (crawlResults.foldl extractPeopleStep st) := by
    induction crawlResults with
    | nil => intro st h; simpa using h
    | cons e rest ih =>
      intro st h
      simp only [List.foldl_cons]
      exact ih _ (hstep st e h)
  exact (hall ([], []) dedupInv_init).1

/-! ## LinkedIn search URLs (`src/contacts/linkedin.ts`) -/

/-- The `REGIONS` table of `linkedin.ts`. -/
def REGIONS : List (String × String) :=
  [("denmark", "Denmark"), ("nordic", "Denmark OR Sweden OR Norway OR Finland"),
   ("europe", "Europe"), ("global", "")]

/-- Upper-case hexadecimal digit. -/
def hexDigitChar (n : Nat) : Char :=
  if n < 10 then Char.ofNat (48 + n) else Char.ofNat (55 + n)

/-- Percent-encoding of one byte value. -/
def percentByte (n : Nat) : String :=
  ⟨['%', hexDigitChar (n / 16), hexDigitChar (n % 16)]⟩

/-- UTF-8 byte values of a Unicode scalar value. -/
def utf8ByteVals (n : Nat) : List Nat :=
  if n < 128 then [n]
  else if n < 2048 then [192 + n / 64, 128 + n % 64]
  else if n < 65536 then [224 + n / 4096, 128 + (n / 64) % 64, 128 + n % 64]
  else [240 + n / 262144, 128 + (n / 4096) % 64, 128 + (n / 64) % 64,
        128 + n % 64]

/-- `application/x-www-form-urlencoded` serialization of one character,
as `URLSearchParams.toString()` performs it: space becomes "+",
alphanumerics and `*-._` pass through, everything else is
percent-encoded bytewise. -/
def formEncodeChar (c : Char) : String :=
  if c = ' ' then "+"
  else if c.isAlphanum || c = '*' || c = '-' || c = '.' || c = '_' then ⟨[c]⟩
  else joinWith "" ((utf8ByteVals c.toNat).map percentByte)

/-- `application/x-www-form-urlencoded` serialization of a string. -/
def formEncode (s : String) : String :=
  joinWith "" (s.toList.map formEncodeChar)

/-- `generateLinkedInSearchUrl` of `linkedin.ts`: keyword list is the
optional title followed by the company name, joined by a space; the
region filter is looked up in `REGIONS` by the lower-cased region (empty
when absent or unknown) and appended as `geoUrn` only when non-empty. -/
def generateLinkedInSearchUrl (companyName : String) (title : Option String)
    (region : Option String) : String :=
  let keywords := (match title with | some t => [t] | none => []) ++ [companyName]
  let regionFilter :=
    match region with
    | some r => (REGIONS.lookup (strToLower r)).getD ""
    | none => ""
  let params := "keywords=" ++ formEncode (joinWith " " keywords)
    ++ "&origin=GLOBAL_SEARCH_HEADER"
  let params :=
    if regionFilter ≠ "" then params ++ "&geoUrn=" ++ formEncode regionFilter
    else params
  "https://www.linkedin.com/search/results/people/?" ++ params

/-! ## Path selector (`src/ranking/pathSelector.ts`) -/

/-- The `type` discriminator of `SelectedPath`. -/
inductive SelectedPathType
  | named_email
  | inbox
  | agency
  | form
  | linkedin
deriving DecidableEq

/-- One ranked outreach path, mirroring the `SelectedPath` interface. -/
structure SelectedPath where
  type : SelectedPathType
  value : String
  personName : Option String
  personTitle : Option String
  score : Nat
  sourceUrl : Option String
deriving DecidableEq

/-- The returned selection, mirroring the `PathSelection` interface. -/
structure PathSelection where
  primary : SelectedPath
  backup : Option SelectedPath
  linkedinUrls : List (String × String)
deriving DecidableEq

/-- JavaScript `o || undefined` on an optional string: an empty string is
falsy and maps to `none`. -/
def jsTruthyOpt (o : Option String) : Option String :=
  match o with
  | some t => if t = "" then none else some t
  | none => none

/-- The person/email matching predicate of `selectBestPaths`: for an
email contact, some token of the lower-cased person name and the
lower-cased local part of the address must contain one another (either
direction). -/
def personEmailMatch (person : ExtractedPerson) (c : ExtractedContact) : Bool :=
  if c.pathType ≠ ContactPathType.email then false
  else
    let emailPrefix := strToLower ((strSplitOnChar '@' c.value).headD "")
    let nameParts := strSplitOnChar ' ' (strToLower person.name)
    nameParts.any (fun part =>
      strIncludes emailPrefix part || strIncludes part emailPrefix)

/-- The first loop of `selectBestPaths`: for each person, the first
matching email contact (if any) yields a named-email candidate at score
100. -/
def namedEmailPaths (contacts : List ExtractedContact)
    (people : List ExtractedPerson) : List SelectedPath :=
  people.filterMap (fun person =>
    (contacts.find? (personEmailMatch person)).map (fun pe =>
      ⟨.named_email, pe.value, some person.name, jsTruthyOpt person.jobTitle,
        100, some pe.sourceUrl⟩))

/-- The second loop of `selectBestPaths`: partnership-classified inboxes
at 75, marketing-classified inboxes at 70. -/
def inboxPaths (contacts : List ExtractedContact) : List SelectedPath :=
  contacts.filterMap (fun c =>
    if c.pathType = ContactPathType.email then
      if c.emailType = some "partnerships" ∨ c.emailType = some "partner"
          ∨ c.emailType = some "sponsorship" ∨ c.emailType = some "sponsor" then
        some ⟨.inbox, c.value, none, none, 75, some c.sourceUrl⟩
      else if c.emailType = some "marketing" ∨ c.emailType = some "brand" then
        some ⟨.inbox, c.value, none, none, 70, some c.sourceUrl⟩
      else none
    else none)

/-- The third loop of `selectBestPaths`: agency contacts at 50,
press/media-classified emails at 45 (both typed `agency`). -/
def agencyPaths (contacts : List ExtractedContact) : List SelectedPath :=
  contacts.filterMap (fun c =>
    if c.pathType = ContactPathType.agency then
      some ⟨.agency, c.value, none, none, 50, some c.sourceUrl⟩
    else if c.pathType = ContactPathType.email ∧
        (c.emailType = some "press" ∨ c.emailType = some "media") then
      some ⟨.agency, c.value, none, none, 45, some c.sourceUrl⟩
    else none)

/-- The fourth loop of `selectBestPaths`: form contacts at 40. -/
def formPaths (contacts : List ExtractedContact) : List SelectedPath :=
  contacts.filterMap (fun c =>
    if c.pathType = ContactPathType.form then
      some ⟨.form, c.value, none, none, 40, some c.sourceUrl⟩
    else none)

/-- The fifth loop of `selectBestPaths`: any email whose value is not yet
among the candidates collected so far (including ones added by this very
loop) is added as a generic inbox at score 30. -/
def addGenericEmail (acc : List SelectedPath) (c : ExtractedContact) :
    List SelectedPath :=
  if c.pathType = ContactPathType.email ∧
      (acc.find? (fun p => p.value == c.value)).isSome = false then
    acc ++ [⟨.inbox, c.value, none, none, 30, some c.sourceUrl⟩]
  else acc

/-- The LinkedIn fallback candidate, always appended at score 25. -/
def linkedinFallbackPath (companyName : String) (region : Option String) :
    SelectedPath :=
  ⟨.linkedin, generateLinkedInSearchUrl companyName (some "Brand Partnerships")
    region, none, none, 25, none⟩

/-- The full candidate list of `selectBestPaths`, before sorting. -/
def rankedPaths (contacts : List ExtractedContact)
    (people : List ExtractedPerson) (companyName : String)
    (region : Option String) : List SelectedPath :=
  (contacts.foldl addGenericEmail
    (namedEmailPaths contacts people ++ inboxPaths contacts
      ++ agencyPaths contacts ++ formPaths contacts))
  ++ [linkedinFallbackPath companyName region]

/-- The four manual-lookup LinkedIn search links of `selectBestPaths`. -/
def linkedinManualUrls (companyName : String) (region : Option String) :
    List (String × String) :=
  [("Brand Partnerships",
    generateLinkedInSearchUrl companyName (some "Brand Partnerships") region),
   ("Sports Marketing",
    generateLinkedInSearchUrl companyName (some "Sports Marketing") region),
   ("Sponsorship Manager",
    generateLinkedInSearchUrl companyName (some "Sponsorship Manager") region),
   ("Marketing Director",
    generateLinkedInSearchUrl companyName (some "Marketing Director") region)]

/-- `selectBestPaths` of `pathSelector.ts` after its two database reads:
sort the candidates descending by score (stable), return `null` only for
an empty candidate list, otherwise the top candidate as primary and the
second (if any) as backup. -/
def selectBestPaths (contacts : List ExtractedContact)
    (people : List ExtractedPerson) (companyName : String)
    (region : Option String) : Option PathSelection :=
  match sortByKeyDesc SelectedPath.score
      (rankedPaths contacts people companyName region) with
  | [] => none
  | p :: rest => some ⟨p, rest.head?, linkedinManualUrls companyName region⟩

/-- C1: `selectBestPaths` returns a selection (never `null`) for every
combination of stored contacts and people, and on empty contacts and
people the primary is exactly the LinkedIn external-search fallback at
score 25, with no backup. -/
theorem selectBestPaths_total_and_fallback :
    (∀ (contacts : List ExtractedContact) (people : List ExtractedPerson)
        (companyName : String) (region : Option String),
      (selectBestPaths contacts people companyName region).isSome = true) ∧
    (∀ (companyName : String) (region : Option String),
      selectBestPaths [] [] companyName region
        = some ⟨linkedinFallbackPath companyName region, none,
            linkedinManualUrls companyName region⟩ ∧
      (linkedinFallbackPath companyName region).score = 25 ∧
      (linkedinFallbackPath companyName region).type = .linkedin) := by
  constructor
  · intro contacts people companyName region
    unfold selectBestPaths
    have hne : sortByKeyDesc SelectedPath.score
        (rankedPaths contacts people companyName region) ≠ [] := by
      intro h
      have hp := perm_sortByKeyDesc SelectedPath.score
        (rankedPaths contacts people companyName region)
      rw [h] at hp
      have hzero := hp.symm.eq_nil
      unfold rankedPaths at hzero
      simp at hzero
    cases hs : sortByKeyDesc SelectedPath.score
        (rankedPaths contacts people companyName region) with
    | nil => exact absurd hs hne
    | cons p rest => rfl
  · intro companyName region
    exact ⟨rfl, rfl, rfl⟩

/-- The single contact of the C10 scenario: a partnerships-classified
email whose local part contains the token "partner" of the person's
name. -/
def partnershipsContacts : List ExtractedContact :=
  [⟨.email, "partnerships@x.com", some "partnerships", 100, "https://ex.com"⟩]

/-- The single person of the C10 scenario. -/
def annPartner : ExtractedPerson :=
  ⟨"Ann Partner", some "Head of Partnerships", some "partnerships",
   "https://ex.com/team", "https://linkedin.example/ann"⟩

/-- C10: a partnerships-classified email whose local part overlaps a
person-name token enters the candidate list twice — as a named-email
candidate at 100 and as a partnership inbox at 75 — so the primary and
the backup of the returned selection carry the same email address. -/
theorem selectBestPaths_duplicate_value_primary_backup :
    ((selectBestPaths partnershipsContacts [annPartner] "Acme" none).map
      (fun sel => (sel.primary.type, sel.primary.value, sel.primary.score,
        sel.backup.map (fun b => (b.type, b.value, b.score)))))
    = some (SelectedPathType.named_email, "partnerships@x.com", 100,
        some (SelectedPathType.inbox, "partnerships@x.com", 75)) := by
  rfl

theorem mem_foldl_addGenericEmail {x : SelectedPath} :
    ∀ (contacts : List ExtractedContact) (acc : List SelectedPath),
      x ∈ acc → x ∈ contacts.foldl addGenericEmail acc := by
  intro contacts
  induction contacts with
  | nil => intro acc h; simpa using h
  | cons c cs ih =>
    intro acc h
    simp only [List.foldl_cons]
    apply ih
    unfold addGenericEmail
    split
    · exact List.mem_append_left _ h
    · exact h

theorem foldl_addGenericEmail_score {x : SelectedPath} :
    ∀ (contacts : List ExtractedContact) (acc : List SelectedPath),
      x ∈ contacts.foldl addGenericEmail acc → x ∈ acc ∨ x.score = 30 := by
  intro contacts
  induction contacts with
  | nil => intro acc h; exact Or.inl (by simpa using h)
  | cons c cs ih =>
    intro acc h
    simp only [List.foldl_cons] at h
    rcases ih _ h with h' | h'
    · revert h'
      unfold addGenericEmail
      split
      · intro h'
        rcases List.mem_append.mp h' with h'' | h''
        · exact Or.inl h''
        · simp only [List.mem_singleton] at h''
          subst h''
          exact Or.inr rfl
      · exact Or.inl
    · exact Or.inr h'

theorem namedEmailPaths_type {x : SelectedPath}
    (contacts : List ExtractedContact) (people : List ExtractedPerson)
    (h : x ∈ namedEmailPaths contacts people) :
    x.type = SelectedPathType.named_email := by
  unfold namedEmailPaths at h
  rcases List.mem_filterMap.mp h with ⟨person, _, hf⟩
  rcases Option.map_eq_some'.mp hf with ⟨pe, _, hmk⟩
  rw [← hmk]

theorem inboxPaths_score {x : SelectedPath} (contacts : List ExtractedContact)
    (h : x ∈ inboxPaths contacts) : x.score = 75 ∨ x.score = 70 := by
  unfold inboxPaths at h
  rcases List.mem_filterMap.mp h with ⟨c, _, hf⟩
  split at hf
  · split at hf
    · rw [Option.some_inj] at hf
      exact Or.inl (by rw [← hf])
    · split at hf
      · rw [Option.some_inj] at hf
        exact Or.inr (by rw [← hf])
      · exact absurd hf (by simp)
  · exact absurd hf (by simp)

theorem agencyPaths_type {x : SelectedPath} (contacts : List ExtractedContact)
    (h : x ∈ agencyPaths contacts) : x.type = SelectedPathType.agency := by
  unfold agencyPaths at h
  rcases List.mem_filterMap.mp h with ⟨c, _, hf⟩
  split at hf
  · rw [Option.some_inj] at hf
    rw [← hf]
  · split at hf
    · rw [Option.some_inj] at hf
      rw [← hf]
    · exact absurd hf (by simp)

theorem formPaths_type {x : SelectedPath} (contacts : List ExtractedContact)
    (h : x ∈ formPaths contacts) : x.type = SelectedPathType.form := by
  unfold formPaths at h
  rcases List.mem_filterMap.mp h with ⟨c, _, hf⟩
  split at hf
  · rw [Option.some_inj] at hf
    rw [← hf]
  · exact absurd hf (by simp)

theorem rankedPaths_inbox_score (contacts : List ExtractedContact)
    (people : List ExtractedPerson) (companyName : String)
    (region : Option String) {x : SelectedPath}
    (hx : x ∈ rankedPaths contacts people companyName region)
    (ht : x.type = SelectedPathType.inbox) :
    x.score = 75 ∨ x.score = 70 ∨ x.score = 30 := by
  unfold rankedPaths at hx
  rcases List.mem_append.mp hx with hx | hx
  · rcases foldl_addGenericEmail_score _ _ hx with hx | h30
    · rcases List.mem_append.mp hx with hx | hform
      · rcases List.mem_append.mp hx with hx | hagency
        · rcases List.mem_append.mp hx with hnamed | hinbox
          · rw [namedEmailPaths_type contacts people hnamed] at ht
            exact absurd ht (by simp)
          · rcases inboxPaths_score contacts hinbox with h | h
            · exact Or.inl h
            · exact Or.inr (Or.inl h)
        · rw [agencyPaths_type contacts hagency] at ht
          exact absurd ht (by simp)
      · rw [formPaths_type contacts hform] at ht
        exact absurd ht (by simp)
    · exact Or.inr (Or.inr h30)
  · simp only [List.mem_singleton] at hx
    rw [hx] at ht
    exact absurd ht (by simp [linkedinFallbackPath])

/-- The person of the C3 scenario. -/
def janeDoe : ExtractedPerson :=
  ⟨"Jane Doe", none, none, "https://ex.com/about",
   "https://linkedin.example/jane"⟩

/-- A contact list holding "jane@company.com" behind an earlier email
whose local part "janet" also contains the name token "jane". -/
def janetFirstContacts : List ExtractedContact :=
  [⟨.email, "janet@x.com", none, 20, "https://ex.com"⟩,
   ⟨.email, "jane@company.com", none, 20, "https://ex.com"⟩]

/-- C3 counterexample: with person "Jane Doe" and contacts
["janet@x.com", "jane@company.com"], the person/email loop takes the
first matching contact, "janet@x.com", so no candidate of the ranking is
a named-email candidate with value "jane@company.com" — the claim fails
as universally stated. -/
theorem selectBestPaths_jane_cx :
    janeDoe ∈ [janeDoe] ∧ janeDoe.name = "Jane Doe" ∧
    (⟨ContactPathType.email, "jane@company.com", none, 20, "https://ex.com"⟩ :
        ExtractedContact) ∈ janetFirstContacts ∧
    ∀ cand ∈ sortByKeyDesc SelectedPath.score
        (rankedPaths janetFirstContacts [janeDoe] "Acme" none),
      ¬ (cand.type = SelectedPathType.named_email ∧
         cand.value = "jane@company.com") := by
  decide

/-- C3 (amended): when additionally no other email contact of the list
matches Jane Doe's name tokens (in particular when "jane@company.com" is
the first such match), the ranking contains a named-email candidate with
value "jane@company.com" linked to "Jane Doe" at score 100, placed before
every inbox-type candidate. -/
theorem selectBestPaths_jane_named_email (contacts : List ExtractedContact)
    (people : List ExtractedPerson) (companyName : String)
    (region : Option String) (jane : ExtractedPerson) (c0 : ExtractedContact)
    (hj : jane ∈ people) (hjn : jane.name = "Jane Doe")
    (hc : c0 ∈ contacts) (hct : c0.pathType = ContactPathType.email)
    (hcv : c0.value = "jane@company.com")
    (honly : ∀ c ∈ contacts, personEmailMatch jane c = true →
      c.value = "jane@company.com") :
    ∃ (l₁ l₂ : List SelectedPath) (cand : SelectedPath),
      sortByKeyDesc SelectedPath.score
          (rankedPaths contacts people companyName region)
        = l₁ ++ cand :: l₂ ∧
      cand.type = SelectedPathType.named_email ∧
      cand.value = "jane@company.com" ∧
      cand.personName = some "Jane Doe" ∧ cand.score = 100 ∧
      ∀ y ∈ l₁, y.type ≠ SelectedPathType.inbox := by
  have hpred : personEmailMatch jane c0 = true := by
    simp only [personEmailMatch, hct, hcv, hjn]
    decide
  have hfs : (contacts.find? (personEmailMatch jane)).isSome = true :=
    List.find?_isSome.mpr ⟨c0, hc, hpred⟩
  obtain ⟨ce, hfind⟩ := Option.isSome_iff_exists.mp hfs
  have hce_val : ce.value = "jane@company.com" :=
    honly ce (List.mem_of_find?_eq_some hfind) (List.find?_some hfind)
  have hmem_named : (⟨SelectedPathType.named_email, ce.value, some jane.name,
      jsTruthyOpt jane.jobTitle, 100, some ce.sourceUrl⟩ : SelectedPath)
      ∈ namedEmailPaths contacts people := by
    unfold namedEmailPaths
    refine List.mem_filterMap.mpr ⟨jane, hj, ?_⟩
    rw [hfind]
    rfl
  have hmem_ranked : (⟨SelectedPathType.named_email, ce.value, some jane.name,
      jsTruthyOpt jane.jobTitle, 100, some ce.sourceUrl⟩ : SelectedPath)
      ∈ rankedPaths contacts people companyName region := by
    unfold rankedPaths
    exact List.mem_append.mpr (Or.inl (mem_foldl_addGenericEmail _ _
      (List.mem_append.mpr (Or.inl (List.mem_append.mpr (Or.inl
        (List.mem_append.mpr (Or.inl hmem_named))))))))
  have hmem_sorted :=
    (perm_sortByKeyDesc SelectedPath.score _).mem_iff.mpr hmem_ranked
  obtain ⟨l₁, l₂, hsplit⟩ := List.append_of_mem hmem_sorted
  refine ⟨l₁, l₂, _, hsplit, rfl, hce_val, by rw [hjn], rfl, ?_⟩
  intro y hy hty
  have hpw := pairwise_sortByKeyDesc SelectedPath.score
    (rankedPaths contacts people companyName region)
  rw [hsplit] at hpw
  rcases List.pairwise_append.mp hpw with ⟨_, _, hcross⟩
  have hscore := hcross y hy _ (List.mem_cons_self _ _)
  have h100 : (100 : Nat) ≤ y.score := hscore
  have hy_ranked : y ∈ rankedPaths contacts people companyName region := by
    apply (perm_sortByKeyDesc SelectedPath.score _).mem_iff.mp
    rw [hsplit]
    exact List.mem_append_left _ hy
  rcases rankedPaths_inbox_score contacts people companyName region
    hy_ranked hty with h | h | h <;> omega

/-- A contact list whose only entry is the matching
"jane@company.com". -/
def janeOnlyContacts : List ExtractedContact :=
  [⟨.email, "jane@company.com", none, 20, "https://ex.com"⟩]

/-- Witness for `selectBestPaths_jane_named_email` at the one-contact,
one-person scenario. -/
theorem selectBestPaths_jane_named_email_witness :
    ∃ (l₁ l₂ : List SelectedPath) (cand : SelectedPath),
      sortByKeyDesc SelectedPath.score
          (rankedPaths janeOnlyContacts [janeDoe] "Acme" none)
        = l₁ ++ cand :: l₂ ∧
      cand.type = SelectedPathType.named_email ∧
      cand.value = "jane@company.com" ∧
      cand.personName = some "Jane Doe" ∧ cand.score = 100 ∧
      ∀ y ∈ l₁, y.type ≠ SelectedPathType.inbox :=
  selectBestPaths_jane_named_email janeOnlyContacts [janeDoe] "Acme" none
    janeDoe
    ⟨ContactPathType.email, "jane@company.com", none, 20, "https://ex.com"⟩
    (List.mem_singleton.mpr rfl) rfl (List.mem_singleton.mpr rfl) rfl rfl
    (by decide)
